import Mathlib

/-!
Shallow embedding of `src/match/match_.py` (the resampling/statistics engine
of the `match` package) and proofs of the specification claims about it.

Modelling conventions:
* numpy float arrays become `List ℚ` (ideal rationals); 2-D arrays become
  `List (List ℚ)` in row-major order (rows = features).
* The numpy global random generator is modelled by an abstract state type `S`
  together with the three operations the source uses:
  `seedFn` (numpy.random.seed), `shuffleFn` (numpy.random.shuffle, returning the
  permuted array and the advanced state) and `choiceFn`
  (numpy.random.choice(n, size), returning the drawn indices and the advanced
  state).  `get_state`/`set_state` become explicit state passing.
* The caller-supplied scoring function may itself consume the global random
  state (the source defends against this), so it is modelled as a stateful
  `F : S → List ℚ → List ℚ → ℚ × S`; `IsPure F f` says it is a pure function.
* `scipy.stats.norm.ppf` and `math.sqrt` are real-valued: the confidence
  interval common lives in `ℝ`, with `norm.ppf` an abstract parameter
  `ppf : ℚ → ℝ` and `math.sqrt`/`numpy.std` via `Real.sqrt`.
* Fallible Python code returns `Except PyError`; Python argument binding for
  the (broken) `apply_along_axis(compute_p_value, ...)` calls is modelled
  explicitly by `callCheck`.
-/

namespace MatchSpec

/-- Python runtime errors relevant to this development. -/
inductive PyError where
  | typeError
deriving DecidableEq, Repr

/-! ## Generic array helpers (numpy) -/

/-- Row extraction used to model `apply_along_axis(..., 1, matrix)` when the
matrix was filled column by column: `rowsOf cols k` is the `k`-row matrix whose
row `j` collects entry `j` of each column, in column order. -/
def rowsOf (cols : List (List ℚ)) (k : ℕ) : List (List ℚ) :=
  (List.range k).map (fun j => cols.map (fun col => col.getD j 0))

/-- Fancy indexing `xs[idxs]` of a 1-D array (out-of-range reads default to 0;
they do not occur in the verified runs). -/
def sampleAt (xs : List ℚ) (idxs : List ℕ) : List ℚ :=
  idxs.map (fun i => xs.getD i 0)

/-- The chunk sizes of `numpy.array_split(xs, n)`: `len % n` chunks of size
`len / n + 1` followed by `n - len % n` chunks of size `len / n`. -/
def splitSizes (len n : ℕ) : List ℕ :=
  List.replicate (len % n) (len / n + 1) ++ List.replicate (n - len % n) (len / n)

/-- Cut a list into consecutive chunks of the given sizes. -/
def splitBySizes {α : Type} : List α → List ℕ → List (List α)
  | _, [] => []
  | xs, k :: ks => xs.take k :: splitBySizes (xs.drop k) ks

/-- Embedding of `numpy.array_split(xs, n)`. -/
def array_split {α : Type} (xs : List α) (n : ℕ) : List (List α) :=
  splitBySizes xs (splitSizes xs.length n)

/-- Population mean, as in `numpy.ndarray.mean`. -/
def npMean (xs : List ℚ) : ℚ := xs.sum / xs.length

/-- Population variance (ddof = 0), as in `numpy.ndarray.var`. -/
def npVar (xs : List ℚ) : ℚ :=
  (xs.map (fun x => (x - npMean xs) ^ 2)).sum / xs.length

/-- Population standard deviation `numpy.ndarray.std` (square root of the
population variance). -/
noncomputable def npStd (xs : List ℚ) : ℝ := Real.sqrt ((npVar xs : ℚ) : ℝ)

/-! ## Scoring (`score` and the stateful scoring function) -/

/-- Embedding of `score(target, features, function)`: apply the scoring
function row-wise over the feature matrix.  The global random state is
threaded through the calls because the scoring function is allowed to be
stateful. -/
def scoreS {S : Type} (F : S → List ℚ → List ℚ → ℚ × S) (s : S) (target : List ℚ) :
    List (List ℚ) → List ℚ × S
  | [] => ([], s)
  | row :: rest =>
    let v := F s target row
    let tail := scoreS F v.2 target rest
    (v.1 :: tail.1, tail.2)

/-- The scoring function is a pure function of its two vector arguments
(the contract the spec imposes on scoring functions). -/
def IsPure {S : Type} (F : S → List ℚ → List ℚ → ℚ × S) (f : List ℚ → List ℚ → ℚ) : Prop :=
  ∀ (s : S) (t ft : List ℚ), F s t ft = (f t ft, s)

/-! ## Significance calculation (`compute_p_value`, `compute_p_values_and_fdrs`) -/

/-- Embedding of `compute_p_value(value, random_values, greater)`:
`(value <= random_values).sum() / random_values.size` (an indicator sum) with
the `1 / size` floor when the fraction is zero, and symmetrically for
`greater=False`. -/
def compute_p_value (value : ℚ) (random_values : List ℚ) (greater : Bool) : ℚ :=
  if greater then
    let p := (random_values.map (fun rv => if value ≤ rv then (1 : ℚ) else 0)).sum /
      random_values.length
    if p = 0 then 1 / random_values.length else p
  else
    let p := (random_values.map (fun rv => if rv ≤ value then (1 : ℚ) else 0)).sum /
      random_values.length
    if p = 0 then 1 / random_values.length else p

/-- Embedding of the combination expression
`where(p_values_f < p_values_r, p_values_f, p_values_r)` on the two one-sided
p-value vectors. -/
def two_sided_p_values (pf pr : List ℚ) : List ℚ :=
  List.zipWith (fun a b => if a < b then a else b) pf pr

/-- The parameter list of `compute_p_value`: name and whether it has a
default.  Only `greater` is defaulted. -/
def computePValueParams : List (String × Bool) :=
  [("value", false), ("random_values", false), ("greater", true)]

/-- Python argument binding for a call with `nPos` positional arguments and
the given keyword-argument names against a parameter list.  Returns
`TypeError` exactly when Python would: too many positional arguments, an
unexpected keyword, a keyword for an already-bound positional, or a missing
required argument. -/
def callCheck (params : List (String × Bool)) (nPos : ℕ) (kws : List String) :
    Except PyError Unit :=
  if params.length < nPos then .error .typeError
  else if kws.any (fun k => !((params.map Prod.fst).contains k)) then .error .typeError
  else if (params.take nPos).any (fun p => kws.contains p.1) then .error .typeError
  else if params.enum.any (fun ip => !ip.2.2 && !(decide (ip.1 < nPos)) && !(kws.contains ip.2.1))
    then .error .typeError
  else .ok ()

/-- Embedding of `compute_p_values_and_fdrs(values, random_values)`.  Its two
`apply_along_axis` calls invoke `compute_p_value` with a single positional
argument (the 1-D slice of `values`): the first call binds no other argument
at all, the second also passes the unknown keyword `kwargs`.  Both bindings
fail, so the function raises `TypeError` before any p-value or FDR is
computed; the `.ok` branch is unreachable. -/
def compute_p_values_and_fdrs (values random_values : List ℚ) :
    Except PyError (List ℚ × List ℚ) :=
  match callCheck computePValueParams 1 [] with
  | .error e => .error e
  | .ok _ =>
    match callCheck computePValueParams 1 ["kwargs"] with
    | .error e => .error e
    | .ok _ => .ok ([], [])

/-! ## Permutation null-distribution generator (`permute_and_score`) -/

/-- One round of the loop in `permute_and_score`: shuffle the private target
copy in place, capture the random state, score all features against the
shuffled target, restore the captured state.  The loop state is
`((current target copy, rng state), (columns so far, trace of
(shuffled target, state after shuffle) per round))`. -/
def permStep {S : Type} (shuffleFn : S → List ℚ → List ℚ × S)
    (F : S → List ℚ → List ℚ → ℚ × S) (features : List (List ℚ))
    (st : (List ℚ × S) × (List (List ℚ) × List (List ℚ × S))) :
    (List ℚ × S) × (List (List ℚ) × List (List ℚ × S)) :=
  let t := st.1.1
  let s := st.1.2
  let shuffled := shuffleFn s t
  let t' := shuffled.1
  let s₁ := shuffled.2
  let saved := s₁
  let col := scoreS F s₁ t' features
  let s₂ := saved
  ((t', s₂), (st.2.1 ++ [col.1], st.2.2 ++ [(t', s₁)]))

/-- The loop of `permute_and_score` after `i` rounds, starting from the
private copy of `target` and the state produced by `seed(random_seed)`. -/
def permIter {S : Type} (seedFn : ℕ → S) (shuffleFn : S → List ℚ → List ℚ × S)
    (F : S → List ℚ → List ℚ → ℚ × S) (target : List ℚ) (features : List (List ℚ))
    (seed : ℕ) : ℕ → (List ℚ × S) × (List (List ℚ) × List (List ℚ × S))
  | 0 => ((target, seedFn seed), ([], []))
  | i + 1 => permStep shuffleFn F features (permIter seedFn shuffleFn F target features seed i)

/-- Embedding of `permute_and_score(target, features, function, n_permutations,
random_seed)`: the `features.length × n_permutations` matrix whose column `i`
scores every feature against the target after `i+1` cumulative shuffles. -/
def permute_and_score {S : Type} (seedFn : ℕ → S) (shuffleFn : S → List ℚ → List ℚ × S)
    (F : S → List ℚ → List ℚ → ℚ × S) (target : List ℚ) (features : List (List ℚ))
    (n_permutations seed : ℕ) : List (List ℚ) :=
  rowsOf (permIter seedFn shuffleFn F target features seed n_permutations).2.1 features.length

/-- The per-round trace of `permute_and_score`: for each round, the shuffled
target used for scoring in that round and the random state right after its
shuffle. -/
def permTrace {S : Type} (seedFn : ℕ → S) (shuffleFn : S → List ℚ → List ℚ × S)
    (F : S → List ℚ → List ℚ → ℚ × S) (target : List ℚ) (features : List (List ℚ))
    (n_permutations seed : ℕ) : List (List ℚ × S) :=
  (permIter seedFn shuffleFn F target features seed n_permutations).2.2

/-- Reference recursion for the shuffle stream, independent of the scoring
function: the target after `i` cumulative shuffles together with the random
state after the `i`-th shuffle. -/
def permTargetAfter {S : Type} (seedFn : ℕ → S) (shuffleFn : S → List ℚ → List ℚ × S)
    (target : List ℚ) (seed : ℕ) : ℕ → List ℚ × S
  | 0 => (target, seedFn seed)
  | i + 1 =>
    let prev := permTargetAfter seedFn shuffleFn target seed i
    shuffleFn prev.2 prev.1

/-- The list of shuffled targets used in the `n` permutation rounds. -/
def roundTargets {S : Type} (seedFn : ℕ → S) (shuffleFn : S → List ℚ → List ℚ × S)
    (target : List ℚ) (seed n : ℕ) : List (List ℚ) :=
  (List.range n).map (fun i => (permTargetAfter seedFn shuffleFn target seed (i + 1)).1)

/-! ## Bootstrap confidence-interval estimator (`compute_confidence_interval`) -/

/-- Per-round bootstrap sample size `ceil(0.632 * n_samples)` (0.632 = 79/125,
and `⌈79m/125⌉ = (79m + 124) / 125` in natural division). -/
def sampleSize (n_samples : ℕ) : ℕ := (79 * n_samples + 124) / 125

/-- One round of the loop in `compute_confidence_interval`: draw
`sampleSize` indices with replacement, sample target and feature columns,
capture the random state, score, restore.  The loop state is
`(rng state, (columns so far, draws so far))`. -/
def cciStep {S : Type} (choiceFn : S → ℕ → ℕ → List ℕ × S)
    (F : S → List ℚ → List ℚ → ℚ × S) (target : List ℚ) (features : List (List ℚ))
    (st : S × (List (List ℚ) × List (List ℕ))) : S × (List (List ℚ) × List (List ℕ)) :=
  let s := st.1
  let drawn := choiceFn s target.length (sampleSize target.length)
  let random_is := drawn.1
  let s₁ := drawn.2
  let sampled_target := sampleAt target random_is
  let sampled_features := features.map (fun row => sampleAt row random_is)
  let saved := s₁
  let col := scoreS F s₁ sampled_target sampled_features
  let s₂ := saved
  (s₂, (st.2.1 ++ [col.1], st.2.2 ++ [random_is]))

/-- The loop of `compute_confidence_interval` after `i` rounds, starting from
the state produced by `seed(random_seed)`. -/
def cciIter {S : Type} (seedFn : ℕ → S) (choiceFn : S → ℕ → ℕ → List ℕ × S)
    (F : S → List ℚ → List ℚ → ℚ × S) (target : List ℚ) (features : List (List ℚ))
    (seed : ℕ) : ℕ → S × (List (List ℚ) × List (List ℕ))
  | 0 => (seedFn seed, ([], []))
  | i + 1 => cciStep choiceFn F target features (cciIter seedFn choiceFn F target features seed i)

/-- The bootstrap score matrix `feature_x_sampling`, one column per round. -/
def cciCols {S : Type} (seedFn : ℕ → S) (choiceFn : S → ℕ → ℕ → List ℕ × S)
    (F : S → List ℚ → List ℚ → ℚ × S) (target : List ℚ) (features : List (List ℚ))
    (n_samplings seed : ℕ) : List (List ℚ) :=
  (cciIter seedFn choiceFn F target features seed n_samplings).2.1

/-- The index draws (`random_is`) of the `n_samplings` bootstrap rounds, as
produced by the run. -/
def cciDraws {S : Type} (seedFn : ℕ → S) (choiceFn : S → ℕ → ℕ → List ℕ × S)
    (F : S → List ℚ → List ℚ → ℚ × S) (target : List ℚ) (features : List (List ℚ))
    (n_samplings seed : ℕ) : List (List ℕ) :=
  (cciIter seedFn choiceFn F target features seed n_samplings).2.2

/-- Reference recursion for the bootstrap sampling stream, independent of the
scoring function: the random state before round `i`. -/
def cciRngBefore {S : Type} (seedFn : ℕ → S) (choiceFn : S → ℕ → ℕ → List ℕ × S)
    (target : List ℚ) (seed : ℕ) : ℕ → S
  | 0 => seedFn seed
  | i + 1 =>
    (choiceFn (cciRngBefore seedFn choiceFn target seed i) target.length
      (sampleSize target.length)).2

/-- The list of index draws of the `n` bootstrap rounds, defined directly from
the sampling stream. -/
def cciDrawList {S : Type} (seedFn : ℕ → S) (choiceFn : S → ℕ → ℕ → List ℕ × S)
    (target : List ℚ) (seed n : ℕ) : List (List ℕ) :=
  (List.range n).map (fun i =>
    (choiceFn (cciRngBefore seedFn choiceFn target seed i) target.length
      (sampleSize target.length)).1)

/-- Embedding of `compute_confidence_interval(target, features, function,
n_samplings, confidence, random_seed)`: build `feature_x_sampling`, then map
`norm.ppf(q=confidence) * row.std() / sqrt(n_samplings)` over its rows. -/
noncomputable def compute_confidence_interval {S : Type} (seedFn : ℕ → S)
    (choiceFn : S → ℕ → ℕ → List ℕ × S) (F : S → List ℚ → List ℚ → ℚ × S)
    (ppf : ℚ → ℝ) (target : List ℚ) (features : List (List ℚ))
    (n_samplings : ℕ) (confidence : ℚ) (seed : ℕ) : List ℝ :=
  (rowsOf (cciCols seedFn choiceFn F target features n_samplings seed) features.length).map
    (fun row => ppf confidence * npStd row / Real.sqrt n_samplings)

/-- Model of the external `scipy.stats.norm.ppf` (inverse standard-normal
CDF), pinned to its values at the two arguments that occur in this
development, rounded to four decimals: `ppf(0.95) = 1.6449` (the one-sided
quantile the source multiplies by) and `ppf(0.975) = 1.9600` (the two-sided
z for 95% confidence that the spec names).  Only the fact that these two
values differ — strict monotonicity of the true quantile function — is used. -/
noncomputable def normPpfModel (q : ℚ) : ℝ :=
  if q ≤ 19 / 20 then (16449 : ℝ) / 10000 else (49 : ℝ) / 25

/-! ## Top/bottom selector and the `match` pipeline -/

/-- Modelled from the spec: `get_top_and_bottom_indices` lives in the helper
package (`helper.helper.df`), which is not under `src/`.  Following §4.6 of the
spec: for a threshold `n ≥ 1` select the top `⌈n/2⌉` and bottom `⌊n/2⌋`
features by score value; for `n < 1` treat `n` as a percentile fraction and
select that fraction of features from each tail. -/
def get_top_and_bottom_indices (scores : List ℚ) (n : ℚ) : List ℕ :=
  let k := scores.length
  let idx := List.range k
  let desc := List.insertionSort (fun i j => scores.getD j 0 ≤ scores.getD i 0) idx
  let asc := List.insertionSort (fun i j => scores.getD i 0 ≤ scores.getD j 0) idx
  let nTop : ℕ := if 1 ≤ n then (⌈n / 2⌉).toNat else (⌈n * k⌉).toNat
  let nBot : ℕ := if 1 ≤ n then (⌊n / 2⌋).toNat else (⌈n * k⌉).toNat
  (desc.take nTop ++ asc.take nBot).dedup

/-- Row selection `features[indices]`. -/
def selectRows (features : List (List ℚ)) (idxs : List ℕ) : List (List ℚ) :=
  idxs.map (fun i => features.getD i [])

/-- The `ResultTable` of `match`: one entry per feature for each of the four
columns.  The CI column is `Option`-valued: `none` is an absent/undefined
half-width. -/
structure ResultTable where
  score : List ℚ
  ci : List (Option ℝ)
  pValue : List ℚ
  fdr : List ℚ

/-- Phase 1 of `match`: `concatenate(multiprocess(multiprocess_score, ...))`.
Each worker process receives a copy of the parent's global random state `s₀`
and scores its chunk of `array_split(features, n_jobs)`; results are
concatenated in chunk order. -/
def matchScores {S : Type} (F : S → List ℚ → List ℚ → ℚ × S) (s₀ : S)
    (target : List ℚ) (features : List (List ℚ)) (n_jobs : ℕ) : List ℚ :=
  ((array_split features n_jobs).map (fun chunk => (scoreS F s₀ target chunk).1)).flatten

/-- The CI-selected feature indices of `match`. -/
def matchIndices {S : Type} (F : S → List ℚ → List ℚ → ℚ × S) (s₀ : S)
    (target : List ℚ) (features : List (List ℚ)) (n_jobs : ℕ) (n_features : ℚ) : List ℕ :=
  get_top_and_bottom_indices (matchScores F s₀ target features n_jobs) n_features

/-- The CI values `compute_confidence_interval(target, features[indices], ...)`
computed by `match`.  Note the source computes these unconditionally: the
`n_samplings < 2` / `ceil(0.632*n_samples) < 3` test only selects a print
message. -/
noncomputable def matchCIVals {S : Type} (seedFn : ℕ → S)
    (choiceFn : S → ℕ → ℕ → List ℕ × S) (F : S → List ℚ → List ℚ → ℚ × S)
    (ppf : ℚ → ℝ) (s₀ : S) (target : List ℚ) (features : List (List ℚ))
    (n_jobs : ℕ) (n_features : ℚ) (n_samplings : ℕ) (confidence : ℚ) (seed : ℕ) : List ℝ :=
  compute_confidence_interval seedFn choiceFn F ppf target
    (selectRows features (matchIndices F s₀ target features n_jobs n_features))
    n_samplings confidence seed

/-- The CI column of the `match` result:
`results.ix[indices, '{confidence} CI'] = compute_confidence_interval(...)`,
positionally aligning the returned values with the selected indices; every
non-selected feature keeps an absent CI. -/
noncomputable def matchCIColumn {S : Type} (seedFn : ℕ → S)
    (choiceFn : S → ℕ → ℕ → List ℕ × S) (F : S → List ℚ → List ℚ → ℚ × S)
    (ppf : ℚ → ℝ) (s₀ : S) (target : List ℚ) (features : List (List ℚ))
    (n_jobs : ℕ) (n_features : ℚ) (n_samplings : ℕ) (confidence : ℚ) (seed : ℕ) :
    List (Option ℝ) :=
  let idxs := matchIndices F s₀ target features n_jobs n_features
  let vals := matchCIVals seedFn choiceFn F ppf s₀ target features n_jobs n_features
    n_samplings confidence seed
  (List.range features.length).map
    (fun j => if idxs.contains j then some (vals.getD (idxs.indexOf j) 0) else none)

/-- Phase 3 of `match`: the pooled permutation score matrix
`concatenate(multiprocess(multiprocess_permute_and_score, ...))`.  Each worker
runs its own full permutation loop, independently re-seeded from the same
`random_seed`, over its chunk of `array_split(features, n_jobs)`. -/
def matchPermScores {S : Type} (seedFn : ℕ → S) (shuffleFn : S → List ℚ → List ℚ × S)
    (F : S → List ℚ → List ℚ → ℚ × S) (target : List ℚ) (features : List (List ℚ))
    (n_jobs n_permutations seed : ℕ) : List (List ℚ) :=
  ((array_split features n_jobs).map
    (fun chunk => permute_and_score seedFn shuffleFn F target chunk n_permutations seed)).flatten

/-- Embedding of `match(target, features, function, ..., n_jobs, n_features,
n_samplings, confidence, n_permutations, random_seed)`, running with initial
process-wide random state `s₀`.  The skip tests on `n_samplings`/`n_permutations`
only choose print messages in the source, so every phase runs unconditionally;
the final `compute_p_values_and_fdrs` call decides success or failure. -/
noncomputable def match_ {S : Type} (seedFn : ℕ → S) (shuffleFn : S → List ℚ → List ℚ × S)
    (choiceFn : S → ℕ → ℕ → List ℕ × S) (F : S → List ℚ → List ℚ → ℚ × S)
    (ppf : ℚ → ℝ) (s₀ : S) (target : List ℚ) (features : List (List ℚ))
    (n_jobs : ℕ) (n_features : ℚ) (n_samplings : ℕ) (confidence : ℚ)
    (n_permutations seed : ℕ) : Except PyError ResultTable :=
  let scores := matchScores F s₀ target features n_jobs
  let pooled := (matchPermScores seedFn shuffleFn F target features n_jobs n_permutations
    seed).flatten
  match compute_p_values_and_fdrs scores pooled with
  | .error e => .error e
  | .ok pv =>
    .ok { score := scores
          ci := matchCIColumn seedFn choiceFn F ppf s₀ target features n_jobs n_features
            n_samplings confidence seed
          pValue := pv.1
          fdr := pv.2 }

/-! ## Heap model of `permute_and_score` (for the frame property)

Python ndarrays are mutable objects passed by reference; `shuffle` mutates its
argument in place.  To state that the caller's arrays survive the call, this
second embedding runs the same body over an explicit heap of arrays, with the
target and every feature row passed as references. -/

/-- A heap of 1-D arrays, addressed by allocation index. -/
def heapGet (h : List (List ℚ)) (r : ℕ) : List ℚ := h.getD r []

/-- In-place overwrite of the array at reference `r`. -/
def heapSet (h : List (List ℚ)) (r : ℕ) (v : List ℚ) : List (List ℚ) := h.set r v

/-- One round of the `permute_and_score` loop over the heap: shuffle the array
at `copyRef` in place, then score all feature rows (read through their
references) against it, restoring the captured random state afterwards. -/
def permHeapStep {S : Type} (shuffleFn : S → List ℚ → List ℚ × S)
    (F : S → List ℚ → List ℚ → ℚ × S) (ftsRefs : List ℕ) (copyRef : ℕ)
    (st : List (List ℚ) × S × List (List ℚ)) : List (List ℚ) × S × List (List ℚ) :=
  let h := st.1
  let s := st.2.1
  let shuffled := shuffleFn s (heapGet h copyRef)
  let h₁ := heapSet h copyRef shuffled.1
  let s₁ := shuffled.2
  let saved := s₁
  let col := scoreS F s₁ (heapGet h₁ copyRef) (ftsRefs.map (heapGet h₁))
  let s₂ := saved
  (h₁, s₂, st.2.2 ++ [col.1])

/-- The heap-model loop after `i` rounds. -/
def permHeapIter {S : Type} (shuffleFn : S → List ℚ → List ℚ × S)
    (F : S → List ℚ → List ℚ → ℚ × S) (ftsRefs : List ℕ) (copyRef : ℕ)
    (init : List (List ℚ) × S × List (List ℚ)) : ℕ → List (List ℚ) × S × List (List ℚ)
  | 0 => init
  | i + 1 => permHeapStep shuffleFn F ftsRefs copyRef
      (permHeapIter shuffleFn F ftsRefs copyRef init i)

/-- Heap-model embedding of `permute_and_score`: `target = array(target)`
allocates a fresh private copy of the caller's target array, and all shuffling
happens on that copy.  Returns the final heap and the score matrix. -/
def permute_and_score_heap {S : Type} (seedFn : ℕ → S)
    (shuffleFn : S → List ℚ → List ℚ × S) (F : S → List ℚ → List ℚ → ℚ × S)
    (h : List (List ℚ)) (targetRef : ℕ) (ftsRefs : List ℕ) (n_permutations seed : ℕ) :
    List (List ℚ) × List (List ℚ) :=
  let copy := heapGet h targetRef
  let h₁ := h ++ [copy]
  let copyRef := h.length
  let fin := permHeapIter shuffleFn F ftsRefs copyRef (h₁, seedFn seed, []) n_permutations
  (fin.1, rowsOf fin.2.2 ftsRefs.length)

/-! ## Lemmas: significance calculator -/

theorem sum_indicator_countP (l : List ℚ) (p : ℚ → Prop) [DecidablePred p] :
    (l.map (fun x => if p x then (1 : ℚ) else 0)).sum = l.countP (fun x => decide (p x)) := by
  induction l with
  | nil => simp
  | cons a l ih => by_cases h : p a <;> simp [h, ih] <;> push_cast <;> ring

/-- Characterization of `compute_p_value` as the count-based empirical
p-value with the `1/|pool|` floor.  Holds for both tails. -/
theorem compute_p_value_char (v : ℚ) (pool : List ℚ) :
    compute_p_value v pool true =
      (if pool.countP (fun rv => decide (v ≤ rv)) = 0 then (1 : ℚ) / pool.length
        else (pool.countP (fun rv => decide (v ≤ rv)) : ℚ) / (pool.length : ℚ)) ∧
    compute_p_value v pool false =
      (if pool.countP (fun rv => decide (rv ≤ v)) = 0 then (1 : ℚ) / pool.length
        else (pool.countP (fun rv => decide (rv ≤ v)) : ℚ) / (pool.length : ℚ)) := by
  have main : ∀ (p : ℚ → Prop) (inst : DecidablePred p),
      (let q := (pool.map (fun rv => if p rv then (1 : ℚ) else 0)).sum / pool.length
        if q = 0 then (1 : ℚ) / pool.length else q) =
      (if pool.countP (fun rv => decide (p rv)) = 0 then (1 : ℚ) / pool.length
        else (pool.countP (fun rv => decide (p rv)) : ℚ) / (pool.length : ℚ)) := by
    intro p inst
    simp only [sum_indicator_countP pool p]
    rcases eq_or_ne pool [] with hnil | hne
    · subst hnil; simp
    · have hlen : (pool.length : ℚ) ≠ 0 := by
        have h0 : pool.length ≠ 0 := fun h => hne (List.length_eq_zero.mp h)
        exact_mod_cast h0
      by_cases hc : pool.countP (fun rv => decide (p rv)) = 0
      · simp [hc, hlen]
      · have hq : ((pool.countP (fun rv => decide (p rv)) : ℚ)) / (pool.length : ℚ) ≠ 0 := by
          apply div_ne_zero _ hlen
          exact_mod_cast hc
        simp [hc, hq]
  constructor
  · have h := main (fun rv => v ≤ rv) inferInstance
    simpa [compute_p_value] using h
  · have h := main (fun rv => rv ≤ v) inferInstance
    simpa [compute_p_value] using h

theorem compute_p_value_mem_Icc (v : ℚ) (pool : List ℚ) (hpool : pool ≠ []) (g : Bool) :
    1 / (pool.length : ℚ) ≤ compute_p_value v pool g ∧ compute_p_value v pool g ≤ 1 := by
  have hlen : 0 < pool.length := List.length_pos.mpr hpool
  have hlenQ : (0 : ℚ) < pool.length := by exact_mod_cast hlen
  have hone : (1 : ℚ) ≤ pool.length := by exact_mod_cast hlen
  have hfloor : 1 / (pool.length : ℚ) ≤ 1 := by
    rw [div_le_one hlenQ]; exact hone
  have key : ∀ (p : ℚ → Bool),
      1 / (pool.length : ℚ) ≤
        (if pool.countP p = 0 then (1 : ℚ) / pool.length
          else (pool.countP p : ℚ) / (pool.length : ℚ)) ∧
      (if pool.countP p = 0 then (1 : ℚ) / pool.length
          else (pool.countP p : ℚ) / (pool.length : ℚ)) ≤ 1 := by
    intro p
    by_cases hc : pool.countP p = 0
    · simp only [hc, if_pos rfl]
      exact ⟨le_refl _, hfloor⟩
    · rw [if_neg hc]
      have h1c : (1 : ℚ) ≤ (pool.countP p : ℚ) := by
        exact_mod_cast Nat.one_le_iff_ne_zero.mpr hc
      constructor
      · gcongr
      · rw [div_le_one hlenQ]
        exact_mod_cast List.countP_le_length p
  cases g
  · rw [(compute_p_value_char v pool).2]
    exact key _
  · rw [(compute_p_value_char v pool).1]
    exact key _

theorem cpvf_error (values random_values : List ℚ) :
    compute_p_values_and_fdrs values random_values = .error .typeError := rfl

/-- C3: for each observed score `v` and every non-empty null pool,
`compute_p_value` returns the one-sided empirical p-value
`|{null values where v ≤ null}| / |pool|` when `greater` is true and
`|{null values where null ≤ v}| / |pool|` when `greater` is false,
substituting `1 / |pool|` whenever the count is zero; and the two-sided
p-value per feature (the `where(p_f < p_r, p_f, p_r)` combination) is the
elementwise minimum of the forward and reverse one-sided p-values. -/
theorem C3_p_value_formula (v : ℚ) (pool : List ℚ) (hpool : pool ≠ [])
    (pf pr : List ℚ) :
    compute_p_value v pool true =
      (if pool.countP (fun rv => decide (v ≤ rv)) = 0 then (1 : ℚ) / pool.length
        else (pool.countP (fun rv => decide (v ≤ rv)) : ℚ) / (pool.length : ℚ)) ∧
    compute_p_value v pool false =
      (if pool.countP (fun rv => decide (rv ≤ v)) = 0 then (1 : ℚ) / pool.length
        else (pool.countP (fun rv => decide (rv ≤ v)) : ℚ) / (pool.length : ℚ)) ∧
    two_sided_p_values pf pr = List.zipWith min pf pr := by
  refine ⟨(compute_p_value_char v pool).1, (compute_p_value_char v pool).2, ?_⟩
  unfold two_sided_p_values
  congr 1
  funext a b
  rcases le_or_lt b a with h | h
  · rw [if_neg (not_lt.mpr h), min_eq_right h]
  · rw [if_pos h, min_eq_left h.le]

theorem C3_p_value_formula_witness :
    compute_p_value 2 [1, 2, 3] true =
      (if ([1, 2, 3] : List ℚ).countP (fun rv => decide ((2:ℚ) ≤ rv)) = 0
        then (1 : ℚ) / ([1, 2, 3] : List ℚ).length
        else (([1, 2, 3] : List ℚ).countP (fun rv => decide ((2:ℚ) ≤ rv)) : ℚ) /
          (([1, 2, 3] : List ℚ).length : ℚ)) ∧
    compute_p_value 2 [1, 2, 3] false =
      (if ([1, 2, 3] : List ℚ).countP (fun rv => decide (rv ≤ (2:ℚ))) = 0
        then (1 : ℚ) / ([1, 2, 3] : List ℚ).length
        else (([1, 2, 3] : List ℚ).countP (fun rv => decide (rv ≤ (2:ℚ))) : ℚ) /
          (([1, 2, 3] : List ℚ).length : ℚ)) ∧
    two_sided_p_values [1/3, 1] [1, 2/3] = List.zipWith min [1/3, 1] [1, 2/3] :=
  C3_p_value_formula 2 [1, 2, 3] (by simp) [1/3, 1] [1, 2/3]

/-- C4: `compute_p_values_and_fdrs` raises `TypeError` on every non-empty
input and never returns: its first `apply_along_axis` call invokes
`compute_p_value` with only one positional argument, leaving the required
`random_values` parameter unbound, and the second call additionally passes
the unsupported keyword `kwargs`; each binding alone already fails. -/
theorem C4_pvalues_typeerror (values random_values : List ℚ)
    (hv : values ≠ []) (hr : random_values ≠ []) :
    compute_p_values_and_fdrs values random_values = .error .typeError ∧
    callCheck computePValueParams 1 [] = .error .typeError ∧
    callCheck computePValueParams 1 ["kwargs"] = .error .typeError :=
  ⟨cpvf_error values random_values, rfl, rfl⟩

theorem C4_pvalues_typeerror_witness :
    compute_p_values_and_fdrs [1] [2] = .error .typeError ∧
    callCheck computePValueParams 1 [] = .error .typeError ∧
    callCheck computePValueParams 1 ["kwargs"] = .error .typeError :=
  C4_pvalues_typeerror [1] [2] (by simp) (by simp)

/-- C7: for every score `v` and non-empty null pool, the p-value returned by
`compute_p_value` lies in `[1/pool_size, 1]` and is never exactly 0. -/
theorem C7_p_value_bounds (v : ℚ) (pool : List ℚ) (hpool : pool ≠ []) (g : Bool) :
    1 / (pool.length : ℚ) ≤ compute_p_value v pool g ∧
    compute_p_value v pool g ≤ 1 ∧ compute_p_value v pool g ≠ 0 := by
  obtain ⟨hlo, hhi⟩ := compute_p_value_mem_Icc v pool hpool g
  refine ⟨hlo, hhi, ?_⟩
  have hlen : (0 : ℚ) < pool.length := by
    exact_mod_cast List.length_pos.mpr hpool
  have : (0 : ℚ) < 1 / pool.length := by positivity
  exact ne_of_gt (lt_of_lt_of_le this hlo)

theorem C7_p_value_bounds_witness :
    1 / (([5, 7] : List ℚ).length : ℚ) ≤ compute_p_value 9 [5, 7] true ∧
    compute_p_value 9 [5, 7] true ≤ 1 ∧ compute_p_value 9 [5, 7] true ≠ 0 :=
  C7_p_value_bounds 9 [5, 7] (by simp) true

/-! ## Lemmas: array splitting and row extraction -/

theorem splitSizes_sum (len n : ℕ) (hn : 1 ≤ n) : (splitSizes len n).sum = len := by
  unfold splitSizes
  rw [List.sum_append, List.sum_replicate, List.sum_replicate, smul_eq_mul, smul_eq_mul]
  have hmlt : len % n < n := Nat.mod_lt _ hn
  have hm : len % n ≤ n := le_of_lt hmlt
  rw [Nat.sub_mul]
  have h2 : (len % n) * (len / n) ≤ n * (len / n) := Nat.mul_le_mul_right _ hm
  have h3 : (len % n) * (len / n + 1) = (len % n) * (len / n) + len % n := by ring
  have h4 : n * (len / n) + len % n = len := Nat.div_add_mod len n
  omega

theorem flatten_splitBySizes {α : Type} (ks : List ℕ) (xs : List α) :
    (splitBySizes xs ks).flatten = xs.take ks.sum := by
  induction ks generalizing xs with
  | nil => simp [splitBySizes]
  | cons k ks ih =>
    simp only [splitBySizes, List.flatten_cons, List.sum_cons, ih (xs.drop k)]
    rw [List.take_add]

theorem flatten_array_split {α : Type} (xs : List α) (n : ℕ) (hn : 1 ≤ n) :
    (array_split xs n).flatten = xs := by
  unfold array_split
  rw [flatten_splitBySizes, splitSizes_sum _ _ hn, List.take_length]

theorem range_map_getD {α β : Type} (l : List α) (d : α) (h : α → β) :
    (List.range l.length).map (fun i => h (l.getD i d)) = l.map h := by
  induction l with
  | nil => simp
  | cons a l ih =>
    rw [List.length_cons, List.range_succ_eq_map]
    simp only [List.map_cons, List.map_map]
    refine congrArg₂ _ rfl ?_
    calc (List.range l.length).map ((fun i => h ((a :: l).getD i d)) ∘ Nat.succ)
        = (List.range l.length).map (fun i => h (l.getD i d)) := by
          refine List.map_congr_left ?_
          intro i _
          simp [List.getD_cons_succ]
      _ = l.map h := ih

theorem getD_map_lt {α β : Type} (l : List α) (g : α → β) (j : ℕ) (d : β) (e : α)
    (hj : j < l.length) : (l.map g).getD j d = g (l.getD j e) := by
  rw [List.getD_eq_getElem _ _ (by simpa using hj), List.getD_eq_getElem _ _ hj]
  exact List.getElem_map g

theorem rowsOf_outer {ι : Type} (ts : List ι) (ch : List (List ℚ))
    (f : ι → List ℚ → ℚ) :
    rowsOf (ts.map (fun t => ch.map (f t))) ch.length =
      ch.map (fun x => ts.map (fun t => f t x)) := by
  unfold rowsOf
  calc (List.range ch.length).map (fun j => (ts.map (fun t => ch.map (f t))).map
          (fun col => col.getD j 0))
      = (List.range ch.length).map (fun j => ts.map (fun t => f t (ch.getD j []))) := by
        refine List.map_congr_left ?_
        intro j hj
        rw [List.mem_range] at hj
        simp only [List.map_map]
        refine List.map_congr_left ?_
        intro t _
        simp only [Function.comp_apply]
        exact getD_map_lt ch (f t) j 0 [] hj
    _ = ch.map (fun x => ts.map (fun t => f t x)) :=
        range_map_getD ch [] (fun x => ts.map (fun t => f t x))

/-! ## Lemmas: scoring, permutation loop, bootstrap loop -/

theorem scoreS_pure {S : Type} (F : S → List ℚ → List ℚ → ℚ × S)
    (f : List ℚ → List ℚ → ℚ) (hF : IsPure F f) (s : S) (t : List ℚ)
    (rows : List (List ℚ)) : scoreS F s t rows = (rows.map (f t), s) := by
  induction rows generalizing s with
  | nil => simp [scoreS]
  | cons row rest ih => simp [scoreS, hF s t row, ih]

theorem permIter_fst {S : Type} (seedFn : ℕ → S) (shuffleFn : S → List ℚ → List ℚ × S)
    (F : S → List ℚ → List ℚ → ℚ × S) (target : List ℚ) (features : List (List ℚ))
    (seed : ℕ) (i : ℕ) :
    (permIter seedFn shuffleFn F target features seed i).1 =
      permTargetAfter seedFn shuffleFn target seed i := by
  induction i with
  | zero => rfl
  | succ i ih => simp [permIter, permStep, permTargetAfter, ih]

theorem permTrace_eq {S : Type} (seedFn : ℕ → S) (shuffleFn : S → List ℚ → List ℚ × S)
    (F : S → List ℚ → List ℚ → ℚ × S) (target : List ℚ) (features : List (List ℚ))
    (n seed : ℕ) :
    permTrace seedFn shuffleFn F target features n seed =
      (List.range n).map (fun i => permTargetAfter seedFn shuffleFn target seed (i + 1)) := by
  induction n with
  | zero => simp [permTrace, permIter]
  | succ n ih =>
    have hfst := permIter_fst seedFn shuffleFn F target features seed n
    simp only [permTrace, permIter, permStep] at *
    rw [ih, List.range_succ, List.map_append, hfst]
    simp [permTargetAfter]

theorem permIter_cols_pure {S : Type} (seedFn : ℕ → S)
    (shuffleFn : S → List ℚ → List ℚ × S) (F : S → List ℚ → List ℚ → ℚ × S)
    (f : List ℚ → List ℚ → ℚ) (hF : IsPure F f) (target : List ℚ)
    (features : List (List ℚ)) (n seed : ℕ) :
    (permIter seedFn shuffleFn F target features seed n).2.1 =
      (roundTargets seedFn shuffleFn target seed n).map (fun t => features.map (f t)) := by
  induction n with
  | zero => simp [permIter, roundTargets]
  | succ n ih =>
    have hfst := permIter_fst seedFn shuffleFn F target features seed n
    simp only [permIter, permStep]
    rw [ih, scoreS_pure F f hF]
    simp only [roundTargets, List.range_succ, List.map_append, List.map_cons, List.map_nil]
    rw [hfst]
    simp [permTargetAfter]

theorem permute_and_score_pure {S : Type} (seedFn : ℕ → S)
    (shuffleFn : S → List ℚ → List ℚ × S) (F : S → List ℚ → List ℚ → ℚ × S)
    (f : List ℚ → List ℚ → ℚ) (hF : IsPure F f) (target : List ℚ)
    (features : List (List ℚ)) (n seed : ℕ) :
    permute_and_score seedFn shuffleFn F target features n seed =
      features.map (fun x =>
        (roundTargets seedFn shuffleFn target seed n).map (fun t => f t x)) := by
  unfold permute_and_score
  rw [permIter_cols_pure seedFn shuffleFn F f hF target features n seed]
  exact rowsOf_outer _ features f

theorem cciIter_fst {S : Type} (seedFn : ℕ → S) (choiceFn : S → ℕ → ℕ → List ℕ × S)
    (F : S → List ℚ → List ℚ → ℚ × S) (target : List ℚ) (features : List (List ℚ))
    (seed : ℕ) (i : ℕ) :
    (cciIter seedFn choiceFn F target features seed i).1 =
      cciRngBefore seedFn choiceFn target seed i := by
  induction i with
  | zero => rfl
  | succ i ih => simp [cciIter, cciStep, cciRngBefore, ih]

theorem cciDraws_eq {S : Type} (seedFn : ℕ → S) (choiceFn : S → ℕ → ℕ → List ℕ × S)
    (F : S → List ℚ → List ℚ → ℚ × S) (target : List ℚ) (features : List (List ℚ))
    (n seed : ℕ) :
    cciDraws seedFn choiceFn F target features n seed =
      cciDrawList seedFn choiceFn target seed n := by
  induction n with
  | zero => simp [cciDraws, cciIter, cciDrawList]
  | succ n ih =>
    have hfst := cciIter_fst seedFn choiceFn F target features seed n
    simp only [cciDraws, cciIter, cciStep] at *
    rw [ih, hfst]
    simp [cciDrawList, List.range_succ]

theorem cciCols_pure {S : Type} (seedFn : ℕ → S) (choiceFn : S → ℕ → ℕ → List ℕ × S)
    (F : S → List ℚ → List ℚ → ℚ × S) (f : List ℚ → List ℚ → ℚ) (hF : IsPure F f)
    (target : List ℚ) (features : List (List ℚ)) (n seed : ℕ) :
    cciCols seedFn choiceFn F target features n seed =
      (cciDrawList seedFn choiceFn target seed n).map (fun idxs =>
        features.map (fun row => f (sampleAt target idxs) (sampleAt row idxs))) := by
  induction n with
  | zero => simp [cciCols, cciIter, cciDrawList]
  | succ n ih =>
    have hfst := cciIter_fst seedFn choiceFn F target features seed n
    simp only [cciCols, cciIter, cciStep] at *
    rw [ih, scoreS_pure F f hF, hfst]
    simp [cciDrawList, List.range_succ, List.map_map]

theorem getD_map_range {β : Type} (n : ℕ) (g : ℕ → β) (i : ℕ) (d : β) (hi : i < n) :
    ((List.range n).map g).getD i d = g i := by
  rw [getD_map_lt (List.range n) g i d 0 (by simpa using hi),
    List.getD_eq_getElem _ _ (by simpa using hi)]
  simp

/-- C9: in `permute_and_score`, every round `i ≥ 2` applies the uniform
shuffle to the already-shuffled target copy produced by round `i-1` (the
trace entry of the previous round), never to a copy reset to the original
ordering: trace entry `i+1` is exactly `shuffleFn` applied to the state and
target of trace entry `i`. -/
theorem C9_cumulative_shuffle {S : Type} (seedFn : ℕ → S)
    (shuffleFn : S → List ℚ → List ℚ × S) (F : S → List ℚ → List ℚ → ℚ × S)
    (target : List ℚ) (features : List (List ℚ)) (n seed : ℕ) (i : ℕ)
    (hi : i + 1 < n) :
    (permTrace seedFn shuffleFn F target features n seed).length = n ∧
    (permTrace seedFn shuffleFn F target features n seed).getD (i + 1)
        (target, seedFn seed) =
      shuffleFn
        (((permTrace seedFn shuffleFn F target features n seed).getD i
          (target, seedFn seed)).2)
        (((permTrace seedFn shuffleFn F target features n seed).getD i
          (target, seedFn seed)).1) := by
  rw [permTrace_eq seedFn shuffleFn F target features n seed]
  constructor
  · simp
  · rw [getD_map_range n _ (i + 1) _ hi, getD_map_range n _ i _ (by omega)]
    rfl

theorem C9_cumulative_shuffle_witness :
    (0 + 1 < 2) ∧
    ((permTrace (fun s => s) (fun s t => (t.reverse, s + 1))
        (fun s t ft => (t.sum + ft.sum, s)) [1, 2] [[3, 4]] 2 0).length = 2 ∧
      (permTrace (fun s => s) (fun s t => (t.reverse, s + 1))
          (fun s t ft => (t.sum + ft.sum, s)) [1, 2] [[3, 4]] 2 0).getD (0 + 1)
          ([1, 2], 0) =
        (fun s t => (t.reverse, s + 1))
          (((permTrace (fun s => s) (fun s t => (t.reverse, s + 1))
            (fun s t ft => (t.sum + ft.sum, s)) [1, 2] [[3, 4]] 2 0).getD 0
            ([1, 2], 0)).2)
          (((permTrace (fun s => s) (fun s t => (t.reverse, s + 1))
            (fun s t ft => (t.sum + ft.sum, s)) [1, 2] [[3, 4]] 2 0).getD 0
            ([1, 2], 0)).1)) :=
  ⟨by decide,
    C9_cumulative_shuffle (fun s => s) (fun s t => (t.reverse, s + 1))
      (fun s t ft => (t.sum + ft.sum, s)) [1, 2] [[3, 4]] 2 0 0 (by decide)⟩

/-- C10: in both `compute_confidence_interval` and `permute_and_score`, the
random state is captured before and restored after each round's scoring step,
so the per-round target permutations (respectively bootstrap index draws)
are identical for any two scoring functions — in particular whether or not
the scoring function internally consumes randomness. -/
theorem C10_state_isolation {S : Type} (seedFn : ℕ → S)
    (shuffleFn : S → List ℚ → List ℚ × S) (choiceFn : S → ℕ → ℕ → List ℕ × S)
    (F G : S → List ℚ → List ℚ → ℚ × S) (target : List ℚ)
    (features : List (List ℚ)) (n seed : ℕ) :
    permTrace seedFn shuffleFn F target features n seed =
      permTrace seedFn shuffleFn G target features n seed ∧
    cciDraws seedFn choiceFn F target features n seed =
      cciDraws seedFn choiceFn G target features n seed := by
  constructor
  · rw [permTrace_eq seedFn shuffleFn F target features n seed,
      permTrace_eq seedFn shuffleFn G target features n seed]
  · rw [cciDraws_eq seedFn choiceFn F target features n seed,
      cciDraws_eq seedFn choiceFn G target features n seed]

theorem matchScores_pure {S : Type} (F : S → List ℚ → List ℚ → ℚ × S)
    (f : List ℚ → List ℚ → ℚ) (hF : IsPure F f) (s₀ : S) (target : List ℚ)
    (features : List (List ℚ)) (n_jobs : ℕ) (hjobs : 1 ≤ n_jobs) :
    matchScores F s₀ target features n_jobs = features.map (f target) := by
  unfold matchScores
  have h1 : (array_split features n_jobs).map (fun chunk => (scoreS F s₀ target chunk).1) =
      (array_split features n_jobs).map (fun chunk => chunk.map (f target)) := by
    refine List.map_congr_left ?_
    intro ch _
    rw [scoreS_pure F f hF]
  rw [h1, ← List.map_flatten, flatten_array_split _ _ hjobs]

theorem matchPermScores_pure {S : Type} (seedFn : ℕ → S)
    (shuffleFn : S → List ℚ → List ℚ × S) (F : S → List ℚ → List ℚ → ℚ × S)
    (f : List ℚ → List ℚ → ℚ) (hF : IsPure F f) (target : List ℚ)
    (features : List (List ℚ)) (n_jobs n_permutations seed : ℕ) (hjobs : 1 ≤ n_jobs) :
    matchPermScores seedFn shuffleFn F target features n_jobs n_permutations seed =
      features.map (fun x =>
        (roundTargets seedFn shuffleFn target seed n_permutations).map (fun t => f t x)) := by
  unfold matchPermScores
  have h1 : (array_split features n_jobs).map
        (fun chunk => permute_and_score seedFn shuffleFn F target chunk n_permutations seed) =
      (array_split features n_jobs).map (fun chunk => chunk.map (fun x =>
        (roundTargets seedFn shuffleFn target seed n_permutations).map (fun t => f t x))) := by
    refine List.map_congr_left ?_
    intro ch _
    rw [permute_and_score_pure seedFn shuffleFn F f hF]
  rw [h1, ← List.map_flatten, flatten_array_split _ _ hjobs]

/-- C5: for every target, feature matrix and fixed seed, `match` with
`n_jobs = 1` and with `n_jobs = k > 1` produce bit-identical score vectors
and bit-identical pooled null-score matrices: chunked dispatch does not
change any numerical result (for a scoring function that is, as the spec
requires, a pure function of its two arguments). -/
theorem C5_parallel_equiv {S : Type} (seedFn : ℕ → S)
    (shuffleFn : S → List ℚ → List ℚ × S) (F : S → List ℚ → List ℚ → ℚ × S)
    (f : List ℚ → List ℚ → ℚ) (hF : IsPure F f) (s₀ : S) (target : List ℚ)
    (features : List (List ℚ)) (n_jobs n_permutations seed : ℕ) (hjobs : 1 ≤ n_jobs) :
    matchScores F s₀ target features n_jobs = matchScores F s₀ target features 1 ∧
    matchPermScores seedFn shuffleFn F target features n_jobs n_permutations seed =
      matchPermScores seedFn shuffleFn F target features 1 n_permutations seed := by
  constructor
  · rw [matchScores_pure F f hF s₀ target features n_jobs hjobs,
      matchScores_pure F f hF s₀ target features 1 le_rfl]
  · rw [matchPermScores_pure seedFn shuffleFn F f hF target features n_jobs
      n_permutations seed hjobs,
      matchPermScores_pure seedFn shuffleFn F f hF target features 1
      n_permutations seed le_rfl]

theorem C5_parallel_equiv_witness :
    matchScores (fun (s : ℕ) t ft => (t.sum + ft.sum, s)) 0 [1, 2] [[3], [4], [5]] 2 =
      matchScores (fun (s : ℕ) t ft => (t.sum + ft.sum, s)) 0 [1, 2] [[3], [4], [5]] 1 ∧
    matchPermScores (fun s => s) (fun s t => (t.reverse, s + 1))
        (fun (s : ℕ) t ft => (t.sum + ft.sum, s)) [1, 2] [[3], [4], [5]] 2 3 0 =
      matchPermScores (fun s => s) (fun s t => (t.reverse, s + 1))
        (fun (s : ℕ) t ft => (t.sum + ft.sum, s)) [1, 2] [[3], [4], [5]] 1 3 0 :=
  C5_parallel_equiv (fun s => s) (fun s t => (t.reverse, s + 1))
    (fun (s : ℕ) t ft => (t.sum + ft.sum, s)) (fun t ft => t.sum + ft.sum)
    (fun s t ft => rfl) 0 [1, 2] [[3], [4], [5]] 2 3 0 (by decide)

/-! ## Lemmas: heap model -/

theorem set_append_length {α : Type} (h : List α) (x v : α) :
    (h ++ [x]).set h.length v = h ++ [v] := by
  induction h with
  | nil => rfl
  | cons a h ih => simpa using ih

theorem getD_append_length {α : Type} (h : List α) (x : α) (d : α) :
    (h ++ [x]).getD h.length d = x := by
  rw [List.getD_append_right _ _ _ _ le_rfl]
  simp

theorem permHeapIter_heap {S : Type} (shuffleFn : S → List ℚ → List ℚ × S)
    (F : S → List ℚ → List ℚ → ℚ × S) (ftsRefs : List ℕ) (h : List (List ℚ))
    (t0 : List ℚ) (s0 : S) (n : ℕ) :
    ∃ t, (permHeapIter shuffleFn F ftsRefs h.length (h ++ [t0], s0, []) n).1 =
      h ++ [t] := by
  induction n with
  | zero => exact ⟨t0, rfl⟩
  | succ n ih =>
    obtain ⟨t, heq⟩ := ih
    refine ⟨(shuffleFn
      (permHeapIter shuffleFn F ftsRefs h.length (h ++ [t0], s0, []) n).2.1 t).1, ?_⟩
    show (permHeapStep shuffleFn F ftsRefs h.length
      (permHeapIter shuffleFn F ftsRefs h.length (h ++ [t0], s0, []) n)).1 = _
    unfold permHeapStep heapSet heapGet
    rw [heq]
    simp only [getD_append_length, set_append_length]

/-- C8: for every call of `permute_and_score`, the caller's target array is
unchanged on return — the body shuffles only the freshly allocated private
copy — and no other pre-existing array (in particular no feature row) is
mutated either: the final heap agrees with the initial heap on every
reference allocated before the call. -/
theorem C8_target_unchanged {S : Type} (seedFn : ℕ → S)
    (shuffleFn : S → List ℚ → List ℚ × S) (F : S → List ℚ → List ℚ → ℚ × S)
    (h : List (List ℚ)) (targetRef : ℕ) (ftsRefs : List ℕ) (n seed : ℕ)
    (r : ℕ) (hr : r < h.length) :
    heapGet (permute_and_score_heap seedFn shuffleFn F h targetRef ftsRefs n seed).1 r =
      heapGet h r := by
  unfold permute_and_score_heap
  show heapGet (permHeapIter shuffleFn F ftsRefs h.length
    (h ++ [heapGet h targetRef], seedFn seed, []) n).1 r = heapGet h r
  obtain ⟨t, heq⟩ :=
    permHeapIter_heap shuffleFn F ftsRefs h (heapGet h targetRef) (seedFn seed) n
  rw [heq]
  show (h ++ [t]).getD r [] = h.getD r []
  exact List.getD_append _ _ _ _ hr

theorem C8_target_unchanged_witness :
    heapGet (permute_and_score_heap (fun s => s) (fun s t => (t.reverse, s + 1))
      (fun (s : ℕ) t ft => (t.sum + ft.sum, s)) [[1, 2, 3], [4, 5]] 0 [1] 2 0).1 0 =
      heapGet [[1, 2, 3], [4, 5]] 0 :=
  C8_target_unchanged (fun s => s) (fun s t => (t.reverse, s + 1))
    (fun (s : ℕ) t ft => (t.sum + ft.sum, s)) [[1, 2, 3], [4, 5]] 0 [1] 2 0 0 (by decide)

/-! ## Claims about the confidence interval -/

/-- Counterexample to C2 as stated: a run of `compute_confidence_interval`
inside the claim's scope — `n_samplings = 2 ≥ 2` and per-round sample size
`ceil(0.632 * 4) = 3 ≥ 3` for the length-4 target `[0,1,2,3]` — with a
concrete deterministic model of `numpy.random.choice` and the pure scoring
function `sum of sampled target`.  The single feature's bootstrap round
scores are `[3, 6]`, with stdev `3/2`, and the returned half-width is
`ppf(0.95) * (3/2) / sqrt 2 = 1.6449 * (3/2) / sqrt 2`, which is not the
claimed `z(0.95) * (3/2) / sqrt 2 = 1.96 * (3/2) / sqrt 2`: the source
multiplies by the one-sided quantile `norm.ppf(confidence)`, not the
two-sided quantile `z(confidence) = ppf((1 + confidence)/2)`. -/
theorem C2_counterexample :
    compute_confidence_interval (fun (s : ℕ) => s)
        (fun s n k => ((List.range k).map (fun j => (s + j) % n), s + 1))
        (fun (s : ℕ) t _ft => (t.sum, s)) normPpfModel [0, 1, 2, 3] [[1, 1, 1, 1]]
        2 (19 / 20) 0 ≠
      [normPpfModel ((1 + 19 / 20) / 2) * npStd [3, 6] / Real.sqrt 2] := by
  have hstd : npStd [3, 6] = 3 / 2 := by
    have hv : npVar [3, 6] = 9 / 4 := by
      norm_num [npVar, npMean]
    rw [npStd, hv, show ((9 / 4 : ℚ) : ℝ) = (3 / 2 : ℝ) ^ 2 by norm_num]
    exact Real.sqrt_sq (by norm_num)
  have hcols : cciCols (fun (s : ℕ) => s)
      (fun s n k => ((List.range k).map (fun j => (s + j) % n), s + 1))
      (fun (s : ℕ) t _ft => (t.sum, s)) [0, 1, 2, 3] [[1, 1, 1, 1]] 2 0 =
      [[3], [6]] := by
    norm_num [cciCols, cciIter, cciStep, scoreS, sampleAt, sampleSize, List.range_succ]
  have hlhs : compute_confidence_interval (fun (s : ℕ) => s)
      (fun s n k => ((List.range k).map (fun j => (s + j) % n), s + 1))
      (fun (s : ℕ) t _ft => (t.sum, s)) normPpfModel [0, 1, 2, 3] [[1, 1, 1, 1]]
      2 (19 / 20) 0 = [(16449 : ℝ) / 10000 * (3 / 2) / Real.sqrt 2] := by
    unfold compute_confidence_interval
    rw [hcols]
    have hrows : rowsOf [[3], [6]] ([[1, 1, 1, 1]] : List (List ℚ)).length =
        [[3, 6]] := by
      norm_num [rowsOf, List.range_succ]
    rw [hrows]
    have hppf : normPpfModel (19 / 20) = (16449 : ℝ) / 10000 := by
      rw [normPpfModel, if_pos le_rfl]
    simp [hppf, hstd]
  have hrhs : normPpfModel ((1 + 19 / 20) / 2) * npStd [3, 6] / Real.sqrt 2 =
      (49 : ℝ) / 25 * (3 / 2) / Real.sqrt 2 := by
    have hppf : normPpfModel ((1 + 19 / 20) / 2) = (49 : ℝ) / 25 := by
      rw [normPpfModel, if_neg (by norm_num)]
    rw [hppf, hstd]
  rw [hlhs, hrhs]
  have hsqrt : Real.sqrt 2 ≠ 0 := by positivity
  intro hEq
  have h1 : (16449 : ℝ) / 10000 * (3 / 2) / Real.sqrt 2 =
      (49 : ℝ) / 25 * (3 / 2) / Real.sqrt 2 := by
    exact List.head_eq_of_cons_eq hEq
  rw [div_left_inj' hsqrt] at h1
  norm_num at h1

/-- C2 amended: for every call of `compute_confidence_interval` with
`n_samplings ≥ 2` and per-round sample size `≥ 3`, the returned half-width
for each selected feature `j` equals `norm.ppf(confidence) * stdev(that
feature's scores across the n_samplings bootstrap rounds) /
sqrt(n_samplings)`, where the factor is the one-sided normal quantile at
`confidence` (≈ 1.6449 for 0.95), not the claimed two-sided quantile
`z(confidence)` (1.96 for 0.95).  The feature's round scores are row `j` of
the bootstrap score matrix `feature_x_sampling` built by the run; the
scoring function is arbitrary (it may even consume random state). -/
theorem C2_ci_formula {S : Type} (seedFn : ℕ → S) (choiceFn : S → ℕ → ℕ → List ℕ × S)
    (F : S → List ℚ → List ℚ → ℚ × S) (ppf : ℚ → ℝ) (target : List ℚ)
    (features : List (List ℚ)) (n_samplings : ℕ) (confidence : ℚ) (seed : ℕ)
    (hn : 2 ≤ n_samplings) (hs : 3 ≤ sampleSize target.length) (j : ℕ)
    (hj : j < features.length) :
    (compute_confidence_interval seedFn choiceFn F ppf target features n_samplings
        confidence seed).getD j 0 =
      ppf confidence *
        npStd ((cciCols seedFn choiceFn F target features n_samplings seed).map
          (fun col => col.getD j 0)) /
        Real.sqrt n_samplings := by
  unfold compute_confidence_interval rowsOf
  rw [getD_map_lt ((List.range features.length).map (fun i =>
      (cciCols seedFn choiceFn F target features n_samplings seed).map
        (fun col => col.getD i 0)))
    (fun row => ppf confidence * npStd row / Real.sqrt n_samplings) j 0 []
    (by simpa using hj)]
  rw [getD_map_range features.length (fun i =>
      (cciCols seedFn choiceFn F target features n_samplings seed).map
        (fun col => col.getD i 0)) j [] hj]

theorem C2_ci_formula_witness :
    (2 ≤ 2 ∧ 3 ≤ sampleSize ([0, 1, 2, 3] : List ℚ).length ∧ 0 < 1) ∧
    (compute_confidence_interval (fun (s : ℕ) => s)
        (fun s n k => ((List.range k).map (fun j => (s + j) % n), s + 1))
        (fun (s : ℕ) t _ft => (t.sum, s)) normPpfModel [0, 1, 2, 3] [[1, 1, 1, 1]]
        2 (19 / 20) 0).getD 0 0 =
      normPpfModel (19 / 20) *
        npStd ((cciCols (fun (s : ℕ) => s)
          (fun s n k => ((List.range k).map (fun j => (s + j) % n), s + 1))
          (fun (s : ℕ) t _ft => (t.sum, s)) [0, 1, 2, 3] [[1, 1, 1, 1]] 2 0).map
          (fun col => col.getD 0 0)) /
        Real.sqrt 2 :=
  ⟨⟨by decide, by decide, by decide⟩,
    C2_ci_formula (fun (s : ℕ) => s)
      (fun s n k => ((List.range k).map (fun j => (s + j) % n), s + 1))
      (fun (s : ℕ) t _ft => (t.sum, s)) normPpfModel [0, 1, 2, 3] [[1, 1, 1, 1]]
      2 (19 / 20) 0 (by decide) (by decide) 0 (by decide)⟩

/-! ## Claims about the `match` pipeline -/

theorem match_error {S : Type} (seedFn : ℕ → S) (shuffleFn : S → List ℚ → List ℚ × S)
    (choiceFn : S → ℕ → ℕ → List ℕ × S) (F : S → List ℚ → List ℚ → ℚ × S)
    (ppf : ℚ → ℝ) (s₀ : S) (target : List ℚ) (features : List (List ℚ))
    (n_jobs : ℕ) (n_features : ℚ) (n_samplings : ℕ) (confidence : ℚ)
    (n_permutations seed : ℕ) :
    match_ seedFn shuffleFn choiceFn F ppf s₀ target features n_jobs n_features
      n_samplings confidence n_permutations seed = .error .typeError := by
  unfold match_
  simp only [cpvf_error]

/-- C6 (code bug): runs of `match` from any two initial process random states
with the same seed and inputs produce identical outcomes, but that outcome is
always `TypeError` raised inside `compute_p_values_and_fdrs` — no
`ResultTable` (with its four columns) is ever produced, contradicting the
claimed reproducible ResultTable. -/
theorem C6_deterministic_failure {S : Type} (seedFn : ℕ → S)
    (shuffleFn : S → List ℚ → List ℚ × S) (choiceFn : S → ℕ → ℕ → List ℕ × S)
    (F : S → List ℚ → List ℚ → ℚ × S) (ppf : ℚ → ℝ) (s₀ s₁ : S) (target : List ℚ)
    (features : List (List ℚ)) (n_jobs : ℕ) (n_features : ℚ) (n_samplings : ℕ)
    (confidence : ℚ) (n_permutations seed : ℕ) :
    match_ seedFn shuffleFn choiceFn F ppf s₀ target features n_jobs n_features
        n_samplings confidence n_permutations seed =
      match_ seedFn shuffleFn choiceFn F ppf s₁ target features n_jobs n_features
        n_samplings confidence n_permutations seed ∧
    match_ seedFn shuffleFn choiceFn F ppf s₀ target features n_jobs n_features
        n_samplings confidence n_permutations seed = .error .typeError := by
  constructor
  · rw [match_error seedFn shuffleFn choiceFn F ppf s₀ target features n_jobs n_features
      n_samplings confidence n_permutations seed,
      match_error seedFn shuffleFn choiceFn F ppf s₁ target features n_jobs n_features
      n_samplings confidence n_permutations seed]
  · exact match_error seedFn shuffleFn choiceFn F ppf s₀ target features n_jobs n_features
      n_samplings confidence n_permutations seed

/-- C1 (code bug): the degenerate-configuration tests in `match` guard only
print statements.  With `n_samplings = 1` (< 2) the CI is still computed and
the selected feature receives the defined half-width `0` instead of an
absent value, for every random model, scoring function and `ppf`; and with
`n_permutations = 0` (< 1) the p-value/FDR phase still runs and raises
`TypeError` inside `compute_p_values_and_fdrs` instead of leaving the
statistics absent and continuing without error. -/
theorem C1_skip_print_only {S : Type} (seedFn : ℕ → S)
    (shuffleFn : S → List ℚ → List ℚ × S) (choiceFn : S → ℕ → ℕ → List ℕ × S)
    (F : S → List ℚ → List ℚ → ℚ × S) (ppf : ℚ → ℝ) (s₀ : S) (target : List ℚ)
    (ft : List ℚ) :
    matchCIColumn seedFn choiceFn F ppf s₀ target [ft] 1 1 1 (19 / 20) 0 = [some 0] ∧
    match_ seedFn shuffleFn choiceFn F ppf s₀ target [ft] 1 1 1 (19 / 20) 0 0 =
      .error .typeError := by
  refine ⟨?_, match_error seedFn shuffleFn choiceFn F ppf s₀ target [ft] 1 1 1
    (19 / 20) 0 0⟩
  have hceil : ⌈(1 : ℚ) / 2⌉ = 1 := by
    rw [Int.ceil_eq_iff] <;> norm_num
  have hfloor : ⌊(1 : ℚ) / 2⌋ = 0 := by
    rw [Int.floor_eq_iff] <;> norm_num
  have hscores : matchScores F s₀ target [ft] 1 = [(F s₀ target ft).1] := by
    norm_num [matchScores, array_split, splitSizes, splitBySizes, scoreS]
  have hidx : matchIndices F s₀ target [ft] 1 1 = [0] := by
    rw [matchIndices, hscores]
    norm_num [get_top_and_bottom_indices, List.insertionSort, List.orderedInsert,
      hceil, hfloor]
  have hnpstd : ∀ y : ℚ, npStd [y] = 0 := by
    intro y
    have hv : npVar [y] = 0 := by
      simp [npVar, npMean]
    rw [npStd, hv]
    simp
  have hvals : matchCIVals seedFn choiceFn F ppf s₀ target [ft] 1 1 1 (19 / 20) 0 =
      [0] := by
    unfold matchCIVals
    rw [hidx]
    have hsel : selectRows [ft] [0] = [ft] := by simp [selectRows]
    rw [hsel]
    unfold compute_confidence_interval
    obtain ⟨y, hy⟩ : ∃ y : ℚ, cciCols seedFn choiceFn F target [ft] 1 0 = [[y]] := by
      simp only [cciCols, cciIter, cciStep, scoreS, List.nil_append]
      exact ⟨_, rfl⟩
    rw [hy]
    have hrows : rowsOf [[y]] ([ft] : List (List ℚ)).length = [[y]] := by
      simp [rowsOf, List.range_succ]
    rw [hrows]
    simp [hnpstd y]
  unfold matchCIColumn
  rw [hidx, hvals]
  simp [List.range_succ]

end MatchSpec
